import Mathlib

/-!
Shallow embedding of the `New-Repo-Task` scaffolding script
(`src/New-Repo-Task/index.ts`) of the Blog-GitHub-API-Automation repository.

The script is a one-shot CI job: it resolves a scaffold request from
environment variables (`getInput`), creates a repository, optionally replaces
its topics, fetches the files of a template repository subtree
(`getTemplateFiles`), renders each of them (`renderFileData`,
`getNewFilename`) and writes the rendered files into the new repository.

Modelling conventions:
* JavaScript strings are Lean `String`s; `undefined`-able values are `Option`;
  JS truthiness of strings (`undefined` and `""` are falsy) is `jsTruthy`.
* Thrown JS exceptions are `Except String`; the network is an explicit
  `Api` record of responses, each `Except` to model transport failures.
* Node's `path.basename` / `path.dirname` / `path.join` (posix) and
  `Buffer` base64 decoding are external libraries; they are embedded below
  following their documented algorithms, on `List Char`.
  UTF-8 decoding of the decoded bytes is abstracted as byte-per-codepoint
  (exact for ASCII payloads).
* `nunjucks.renderString` is an external library; it is modelled from the
  spec as named-placeholder substitution where unresolved placeholders
  render as the empty string.
-/

/-! ## JS string primitives -/

/-- JS truthiness of a possibly-undefined string: `undefined` and `""` are
falsy, every other string is truthy. -/
def jsTruthy : Option String → Bool
  | none => false
  | some s => s ≠ ""

/-- JS `a || b` for a possibly-undefined string `a` and a default `b`:
returns `a`'s value when truthy, otherwise `b`. -/
def jsOr (a : Option String) (b : String) : String :=
  match a with
  | some v => if v ≠ "" then v else b
  | none => b

/-- JS `a || b` on two possibly-undefined strings: the first operand when
truthy, otherwise the second operand (whatever its value). -/
def jsOrOpt (a b : Option String) : Option String :=
  if jsTruthy a then a else b

/-- JS `String.prototype.split` with a single-character separator
(the source only splits on `','`). `"".split(',')` is `[""]`. -/
def jsSplit (s : String) (sep : Char) : List String :=
  (s.data.splitOn sep).map String.mk

/-- JS `String.prototype.endsWith`. -/
def jsEndsWith (s suf : String) : Bool :=
  suf.data.isSuffixOf s.data

/-- JS `String.prototype.startsWith`. -/
def jsStartsWith (s pre : String) : Bool :=
  pre.data.isPrefixOf s.data

/-- JS `String.prototype.toLowerCase` (ASCII, as used on `'Bun'`/`'Elysia'`). -/
def jsToLowerCase (s : String) : String :=
  String.mk (s.data.map Char.toLower)

/-! ## Node `path.posix` (external library, embedded from its algorithm) -/

/-- `path.posix.basename`: skip trailing slashes from the end, then take the
chars up to the previous slash. -/
def basenameChars (l : List Char) : List Char :=
  (((l.reverse.dropWhile (fun c => c == '/')).takeWhile (fun c => c != '/'))).reverse

/-- `path.posix.basename` on strings. -/
def basename (p : String) : String :=
  String.mk (basenameChars p.data)

/-- `path.posix.dirname`: Node scans from the end, skips trailing slashes,
skips the last segment, and returns everything before the separator slash;
degenerate cases give `"."`, `"/"` or `"//"`. -/
def dirnameChars (l : List Char) : List Char :=
  if l.isEmpty then ['.']
  else
    let hasRoot := l.head? == some '/'
    let r1 := l.reverse.dropWhile (fun c => c == '/')
    let r2 := r1.dropWhile (fun c => c != '/')
    let before := (r2.drop 1).reverse
    if r2.isEmpty then (if hasRoot then ['/'] else ['.'])
    else if before.isEmpty then (if hasRoot then ['/'] else ['.'])
    else if before == ['/'] then ['/', '/']
    else before

/-- `path.posix.dirname` on strings. -/
def dirname (p : String) : String :=
  String.mk (dirnameChars p.data)

/-- Node `normalizeString` segment resolution: drop empty and `.` segments,
resolve `..` against the accumulated stack (kept when above root and
`allowAbove` is set, as for relative paths). `acc` is the reversed stack. -/
def resolveDots (allowAbove : Bool) : List (List Char) → List (List Char) → List (List Char)
  | acc, [] => acc.reverse
  | acc, seg :: rest =>
    if seg.isEmpty || seg == ['.'] then resolveDots allowAbove acc rest
    else if seg == ['.', '.'] then
      match acc with
      | [] => resolveDots allowAbove (if allowAbove then [seg] else []) rest
      | top :: accTail =>
        if top == ['.', '.'] then
          resolveDots allowAbove (if allowAbove then seg :: acc else acc) rest
        else resolveDots allowAbove accTail rest
    else resolveDots allowAbove (seg :: acc) rest

/-- `path.posix.normalize`. -/
def normalizeChars (l : List Char) : List Char :=
  if l.isEmpty then ['.']
  else
    let isAbs := l.head? == some '/'
    let trail := l.getLast? == some '/'
    let segs := l.splitOn '/'
    let res := resolveDots (!isAbs) [] segs
    let body := List.intercalate ['/'] res
    if body.isEmpty then
      (if isAbs then ['/'] else if trail then ['.', '/'] else ['.'])
    else
      let body2 := if trail then body ++ ['/'] else body
      if isAbs then '/' :: body2 else body2

/-- `path.posix.join` on two parts, as used by `renderFileData`:
concatenate the non-empty parts with `/` and normalize. -/
def joinTwo (a b : String) : String :=
  let joined := if a = "" then b else if b = "" then a else a ++ "/" ++ b
  String.mk (normalizeChars joined.data)

/-! ## Node `Buffer` base64 decoding (external library) -/

/-- Value of one base64 alphabet character, `none` for non-alphabet chars
(Node's decoder skips those; `=` padding carries no value). -/
def b64Val (c : Char) : Option Nat :=
  let n := c.toNat
  if 65 ≤ n ∧ n ≤ 90 then some (n - 65)
  else if 97 ≤ n ∧ n ≤ 122 then some (n - 71)
  else if 48 ≤ n ∧ n ≤ 57 then some (n + 4)
  else if c = '+' then some 62
  else if c = '/' then some 63
  else none

/-- Regroup 6-bit values into 8-bit bytes; a dangling single sextet is
dropped, as in Node. -/
def sextetsToBytes : List Nat → List Nat
  | a :: b :: c :: d :: rest =>
    (a * 4 + b / 16) :: ((b % 16) * 16 + c / 4) :: ((c % 4) * 64 + d) :: sextetsToBytes rest
  | [a, b] => [a * 4 + b / 16]
  | [a, b, c] => [a * 4 + b / 16, (b % 16) * 16 + c / 4]
  | _ => []

/-- `Buffer.from(s, 'base64').toString()`: decode the base64 payload to
bytes and read them back as text (byte-per-codepoint; exact for ASCII). -/
def b64ToString (s : String) : String :=
  String.mk ((sextetsToBytes (s.data.filterMap b64Val)).map Char.ofNat)

/-! ## Data model -/

/-- `RepoTeam`: a named team with a description. -/
structure RepoTeam where
  name : String
  description : String
deriving DecidableEq, Repr

/-- Runtime shape of the `UserInput` object built by `getInput`.
The TS type annotation promises `repoTeam : RepoTeam`, but the value is
produced by the unchecked indexing `RepoTeams[repoTeamName]`, which is
`undefined` for an unrecognized name, so the runtime-accurate type is
`Option RepoTeam`.  `repoType`, similarly, is an unchecked cast of the raw
environment string. -/
structure UserInput where
  repoName : String
  repoTeam : Option RepoTeam
  repoType : String
  repoOwner : String
  repoTopics : Option (List String)
  repoDescription : Option String
  templateRepoName : String
deriving DecidableEq, Repr

/-- `GetContentsData`: the per-file payload returned by the contents API
(fields not read by the script are omitted from the embedding: the URL
fields and `_links` are never accessed). -/
structure GetContentsData where
  type : String
  size : Nat
  name : String
  path : String
  content : Option String
  sha : String
deriving DecidableEq, Repr

/-- `RenderedTemplateFile`: final path plus rendered textual content. -/
structure RenderedTemplateFile where
  path : String
  content : String
deriving DecidableEq, Repr

/-- A node of the recursive git tree listing: its `type` tag and its
(possibly absent) path, the only fields the script reads. -/
structure TreeNode where
  type : String
  path : Option String
deriving DecidableEq, Repr

/-- Response of the tree-listing request. -/
structure TreeResponse where
  status : Nat
  tree : List TreeNode
deriving DecidableEq, Repr

/-- The process environment variables the script reads. -/
structure Env where
  GITHUB_TOKEN : Option String
  GH_PAT : Option String
  TEMPLATE_REPO_NAME : Option String
  REPO_NAME : Option String
  REPO_TEAM : Option String
  REPO_TYPE : Option String
  GITHUB_REPOSITORY_OWNER : Option String
  REPO_OWNER : Option String
  REPO_TOPICS : Option String
  REPO_DESCRIPTION : Option String
deriving DecidableEq, Repr

/-- The GitHub REST collaborator, as the responses each request would get:
`Except` models a thrown transport error, the `Nat` is the HTTP status. -/
structure Api where
  createRepoStatus : Except String Nat
  replaceTopicsStatus : Except String Nat
  treeRes : Except String TreeResponse
  fetchContent : String → Except String (Nat × GetContentsData)
  createFileStatus : String → Except String Nat

/-- The write-effect calls `main` issues against the GitHub API, in order.
Read-only calls (tree listing, content fetches) and constant flags of
`createInOrg` are not part of the write trace; the file content is recorded
as the rendered text (the transport base64-encodes it). -/
inductive ApiCall where
  | createRepo (name org : String) (description : Option String)
  | replaceAllTopics (names : List String) (repo owner : String)
  | createOrUpdateFile (path content message repo owner : String)
deriving DecidableEq, Repr

/-! ## Constants -/

/-- The `RepoTeams` lookup table, embedded as the indexing operation
`RepoTeams[name]` (which is `undefined` for an unrecognized key). -/
def lookupTeam (name : String) : Option RepoTeam :=
  if name = "Backend" then some ⟨"Backend", "The team responsible for backend services."⟩
  else if name = "Design" then some ⟨"Design", "The team responsible for design."⟩
  else if name = "DevOps" then some ⟨"DevOps", "The team responsible for DevOps."⟩
  else if name = "Frontend" then some ⟨"Frontend", "The team responsible for frontend services."⟩
  else if name = "Platform" then some ⟨"Platform", "The team responsible for the platform."⟩
  else if name = "QA" then some ⟨"QA", "The team responsible for QA."⟩
  else none

/-! ## nunjucks `renderString` — modelled from the spec (external library):
named-placeholder substitution over the scaffold request; an unresolved
placeholder renders as the empty string. -/

/-- Opening brace character (spelled as a definition for reuse). -/
def obr : Char := '{'

/-- Closing brace character. -/
def cbr : Char := '}'

/-- Strip leading and trailing spaces of a placeholder name. -/
def trimSpaces (l : List Char) : List Char :=
  ((l.dropWhile (fun c => c == ' ')).reverse.dropWhile (fun c => c == ' ')).reverse

/-- Value of a placeholder name in the substitution context (the
`UserInput`); unresolved names yield `""`. -/
def lookupVar (input : UserInput) (name : String) : String :=
  if name = "repoName" then input.repoName
  else if name = "repoType" then input.repoType
  else if name = "repoOwner" then input.repoOwner
  else if name = "repoDescription" then (input.repoDescription.getD "")
  else if name = "templateRepoName" then input.templateRepoName
  else if name = "repoTeam.name" then (match input.repoTeam with | some t => t.name | none => "")
  else if name = "repoTeam.description" then
    (match input.repoTeam with | some t => t.description | none => "")
  else if name = "repoTopics" then
    (match input.repoTopics with | some ts => String.intercalate "," ts | none => "")
  else ""

/-- Scanner state for placeholder substitution. -/
inductive RenderState where
  | text
  | brace1
  | hole (nameRev : List Char)
  | closeHalf (nameRev : List Char)

/-- One scanner step; the accumulated output is kept reversed. -/
def renderStep (input : UserInput) (st : RenderState × List Char) (c : Char) :
    RenderState × List Char :=
  match st.1 with
  | .text => if c == obr then (.brace1, st.2) else (.text, c :: st.2)
  | .brace1 => if c == obr then (.hole [], st.2) else (.text, c :: obr :: st.2)
  | .hole nm => if c == cbr then (.closeHalf nm, st.2) else (.hole (c :: nm), st.2)
  | .closeHalf nm =>
    if c == cbr then
      (.text, (lookupVar input (String.mk (trimSpaces nm.reverse))).data.reverse ++ st.2)
    else (.hole (c :: cbr :: nm), st.2)

/-- Emit an unfinished scanner state literally (reversed). -/
def renderFlush : RenderState → List Char
  | .text => []
  | .brace1 => [obr]
  | .hole nm => nm ++ [obr, obr]
  | .closeHalf nm => cbr :: nm ++ [obr, obr]

/-- `nj.renderString(template, input)` — spec-modelled placeholder
substitution, a total pure function of the pair. -/
def renderString (template : String) (input : UserInput) : String :=
  let res := template.data.foldl (renderStep input) (RenderState.text, [])
  String.mk (renderFlush res.1 ++ res.2).reverse

/-! ## The script's functions -/

/-- `getInput()`: resolve the scaffold request from the environment.
Each `throw new Error(...)` is an `Except.error`; the `!x` checks are JS
truthiness, so an unset or empty variable is rejected, while any other
value passes through the unchecked casts unvalidated. -/
def getInput (env : Env) : Except String UserInput :=
  let templateRepoName := jsOr env.TEMPLATE_REPO_NAME "Blog-GitHub-API-Automation-Template"
  if !jsTruthy env.REPO_NAME then .error "REPO_NAME is a required environment variable."
  else if !jsTruthy env.REPO_TEAM then .error "REPO_TEAM is a required environment variable."
  else if !jsTruthy env.REPO_TYPE then .error "REPO_TYPE is a required environment variable."
  else
    let repoOwner := jsOrOpt env.GITHUB_REPOSITORY_OWNER env.REPO_OWNER
    if !jsTruthy repoOwner then .error "REPO_OWNER is a required environment variable."
    else .ok {
      repoName := env.REPO_NAME.getD ""
      repoTeam := lookupTeam (env.REPO_TEAM.getD "")
      repoType := env.REPO_TYPE.getD ""
      repoOwner := repoOwner.getD ""
      repoTopics := env.REPO_TOPICS.map (fun s => jsSplit s ',')
      repoDescription := env.REPO_DESCRIPTION
      templateRepoName := templateRepoName }

/-- `getNewFilename`: the fixed rename table for the two recognized
template filenames; every other name is returned unchanged. -/
def getNewFilename (filename : String) : String :=
  if filename = "README.njk" then "README.md"
  else if filename = "package.njk" then "package.json"
  else filename

/-- `renderFileData(file, input)`: `undefined` when the file has no truthy
content (absent or `""`); otherwise decode the base64 payload and either
render it as a template (path ends in `.njk`: rename via `getNewFilename`,
substitute placeholders, re-join the path) or copy it verbatim. -/
def renderFileData (file : GetContentsData) (input : UserInput) :
    Option RenderedTemplateFile :=
  match file.content with
  | some content =>
    if content = "" then none
    else
      let filename := basename file.path
      let fileDir := dirname file.path
      if jsEndsWith file.path ".njk" then
        let newFilename := getNewFilename filename
        let fileContent := b64ToString content
        let renderedContent := renderString fileContent input
        some { path := joinTwo fileDir newFilename, content := renderedContent }
      else
        some { path := file.path, content := b64ToString content }
  | none => none

/-- The tree-node guard of `getTemplateFiles`' loop:
`treeNode.type === 'blob' && treeNode.path && treeNode.path.startsWith(lowercased type + '/')`
(given the already-extracted defined path `p`). -/
def wantedPath (input : UserInput) (tp p : String) : Bool :=
  tp == "blob" && !(p == "") && jsStartsWith p (jsToLowerCase input.repoType ++ "/")

/-- The fetch-and-render loop of `getTemplateFiles` over the tree nodes.
`Except.error` models an exception escaping the loop (a thrown fetch error
or a non-200 content status). -/
def filesLoop (api : Api) (input : UserInput) :
    List TreeNode → Except String (List RenderedTemplateFile)
  | [] => .ok []
  | n :: rest =>
    match n.path with
    | some p =>
      if wantedPath input n.type p then
        match api.fetchContent p with
        | .error e => .error e
        | .ok (st, d) =>
          if st ≠ 200 then .error ("Template file not found: " ++ p)
          else
            match renderFileData d input with
            | some r => (filesLoop api input rest).map (fun fs => r :: fs)
            | none => filesLoop api input rest
      else filesLoop api input rest
    | none => filesLoop api input rest

/-- `getTemplateFiles(input)`: list the template repository tree and render
every qualifying file; its `try/catch` converts any thrown error — a failed
tree request, a non-200 tree status, a failed content fetch or a non-200
content status — into the empty result, so the caller never sees a partial
file set or an exception. -/
def getTemplateFiles (api : Api) (input : UserInput) : List RenderedTemplateFile :=
  match api.treeRes with
  | .error _ => []
  | .ok tr =>
    if tr.status ≠ 200 then []
    else
      match filesLoop api input tr.tree with
      | .ok fs => fs
      | .error _ => []

/-- The `main` loop writing rendered files via
`createOrUpdateFileContents`; a thrown write aborts the remaining writes
(the error is caught at top level). Returns the attempted write calls. -/
def writeFilesLoop (api : Api) (input : UserInput) :
    List RenderedTemplateFile → List ApiCall
  | [] => []
  | f :: rest =>
    let call := ApiCall.createOrUpdateFile f.path f.content
      ("feat: added " ++ f.path ++ " from template repo") input.repoName input.repoOwner
    match api.createFileStatus f.path with
    | .error _ => [call]
    | .ok _ => call :: writeFilesLoop api input rest

/-- The topics guard of `main`:
`userInput.repoTopics && userInput.repoTopics[0] !== ''` — the list must be
defined (JS arrays are always truthy) and its first element (`undefined`
for an empty list) must differ from the empty string. -/
def topicsGuard (repoTopics : Option (List String)) : Bool :=
  match repoTopics with
  | none => false
  | some ts =>
    match ts.head? with
    | none => true
    | some h => h ≠ ""

/-- The `main` body inside the top-level `try/catch`: the emitted write
calls in order, and the process exit code.  Every throw inside the `try` is
caught by the single handler, which only logs — so the exit code is `0` on
every path, including all failure paths.  A `UserInput` whose `repoTeam`
is `undefined` crashes on the `userInput.repoTeam.name` debug access
before any API call (also caught). -/
def mainRun (env : Env) (api : Api) : List ApiCall × Nat :=
  match getInput env with
  | .error _ => ([], 0)
  | .ok input =>
    match input.repoTeam with
    | none => ([], 0)
    | some _ =>
      let createCall := ApiCall.createRepo input.repoName input.repoOwner input.repoDescription
      match api.createRepoStatus with
      | .error _ => ([createCall], 0)
      | .ok _ =>
        if topicsGuard input.repoTopics then
          let topicsCall := ApiCall.replaceAllTopics (input.repoTopics.getD [])
            input.repoName input.repoOwner
          match api.replaceTopicsStatus with
          | .error _ => ([createCall, topicsCall], 0)
          | .ok _ =>
            (createCall :: topicsCall ::
              writeFilesLoop api input (getTemplateFiles api input), 0)
        else
          (createCall :: writeFilesLoop api input (getTemplateFiles api input), 0)

/-- The whole process: the module-level API-token check throws outside any
handler (non-zero exit); otherwise the `try/catch`-wrapped main body runs. -/
def program (env : Env) (api : Api) : List ApiCall × Nat :=
  if jsTruthy env.GITHUB_TOKEN || jsTruthy env.GH_PAT then mainRun env api
  else ([], 1)

/-! ## Derived predicates used in the statements -/

/-- The per-node outcome of a fully successful `getTemplateFiles` run, used
to state that the output is the in-order image of the tree listing. -/
def nodeOutput (api : Api) (input : UserInput) (n : TreeNode) :
    Option RenderedTemplateFile :=
  match n.path with
  | none => none
  | some p =>
    if wantedPath input n.type p then
      match api.fetchContent p with
      | .ok (_, d) => renderFileData d input
      | .error _ => none
    else none

/-- A content fetch for path `p` fails: the request throws, or it returns a
non-success status. -/
def fetchFails (api : Api) (p : String) : Prop :=
  match api.fetchContent p with
  | .error _ => True
  | .ok (st, _) => st ≠ 200

/-- A repository-relative directory string is well formed when it is
non-empty and splits on `/` into segments that are non-empty and are not
the special `.` / `..` segments — every directory of a git tree listing is
of this shape (git forbids empty, `.` and `..` path segments). -/
def goodDir (d : String) : Prop :=
  d.data ≠ [] ∧ ∀ s ∈ d.data.splitOn '/', s ≠ [] ∧ s ≠ ['.'] ∧ s ≠ ['.', '.']

/-! ## Concrete runs used by witnesses and counterexamples -/

/-- A resolved scaffold request, as `getInput` produces it for `envEx`. -/
def inputEx : UserInput :=
  { repoName := "new-svc"
    repoTeam := some ⟨"Platform", "The team responsible for the platform."⟩
    repoType := "Bun"
    repoOwner := "acme"
    repoTopics := none
    repoDescription := none
    templateRepoName := "Blog-GitHub-API-Automation-Template" }

/-- A plain (non-template) file with content `MIT` (base64 `TUlU`). -/
def fileLicense : GetContentsData :=
  { type := "file", size := 3, name := "LICENSE", path := "bun/LICENSE"
    content := some "TUlU", sha := "sha1" }

/-- A `README.njk` template file (content base64 of `# Hi`). -/
def fileReadme : GetContentsData :=
  { type := "file", size := 4, name := "README.njk", path := "bun/README.njk"
    content := some "IyBIaQ==", sha := "sha2" }

/-- A `package.njk` template file (content base64 of `x`). -/
def filePackage : GetContentsData :=
  { type := "file", size := 1, name := "package.njk", path := "bun/package.njk"
    content := some "eA==", sha := "sha3" }

/-- A `.njk` template file that is neither of the two renamed names. -/
def fileOther : GetContentsData :=
  { type := "file", size := 2, name := "other.njk", path := "bun/other.njk"
    content := some "aGk=", sha := "sha4" }

/-- A non-template file whose content payload is present but empty — the
GitHub contents API returns `content: ""` for an empty file. -/
def fileLicenseEmpty : GetContentsData :=
  { type := "file", size := 0, name := "LICENSE", path := "bun/LICENSE"
    content := some "", sha := "sha5" }

/-- An empty `README.njk` (present but empty content payload). -/
def fileReadmeEmpty : GetContentsData :=
  { type := "file", size := 0, name := "README.njk", path := "bun/README.njk"
    content := some "", sha := "sha6" }

/-- An empty `other.njk` (present but empty content payload). -/
def fileOtherEmpty : GetContentsData :=
  { type := "file", size := 0, name := "other.njk", path := "bun/other.njk"
    content := some "", sha := "sha7" }

/-- A directory entry: no content payload at all. -/
def fileDirEntry : GetContentsData :=
  { type := "dir", size := 0, name := "src", path := "bun/src"
    content := none, sha := "sha8" }

/-- `fileReadme` with different metadata fields (`size`, `name`, `sha`) but
the same `path` and `content`. -/
def fileReadmeAlt : GetContentsData :=
  { fileReadme with size := 999, name := "renamed", sha := "shaZ" }

/-- An environment with every required variable set and a known team. -/
def envEx : Env :=
  { GITHUB_TOKEN := some "tok", GH_PAT := none
    TEMPLATE_REPO_NAME := none
    REPO_NAME := some "new-svc", REPO_TEAM := some "Platform"
    REPO_TYPE := some "Bun", GITHUB_REPOSITORY_OWNER := some "acme"
    REPO_OWNER := none, REPO_TOPICS := none, REPO_DESCRIPTION := none }

/-- Like `envEx` but with `REPO_TEAM` set to a value outside the team
table. -/
def envUnknownTeam : Env :=
  { envEx with REPO_TEAM := some "Marketing" }

/-- Like `envEx` but with a topics list set. -/
def envWithTopics : Env :=
  { envEx with REPO_TOPICS := some "api,bun" }

/-- A small template tree: one qualifying blob, one directory node, one
blob outside the `bun/` subtree. -/
def treeEx : TreeResponse :=
  { status := 200
    tree := [ { type := "blob", path := some "bun/README.njk" }
            , { type := "tree", path := some "bun/src" }
            , { type := "blob", path := some "other/x.ts" } ] }

/-- An API in which every request succeeds; the only qualifying path
`bun/README.njk` has fetchable content. -/
def apiOk : Api :=
  { createRepoStatus := .ok 201
    replaceTopicsStatus := .ok 200
    treeRes := .ok treeEx
    fetchContent := fun p => if p = "bun/README.njk" then .ok (200, fileReadme) else .error "HttpError"
    createFileStatus := fun _ => .ok 201 }

/-- Like `apiOk` but the tree listing reports status 404. -/
def apiBadTree : Api :=
  { apiOk with treeRes := .ok { status := 404, tree := [] } }

/-- Like `apiOk` but the repository-creation request throws. -/
def apiFailCreate : Api :=
  { apiOk with createRepoStatus := .error "HttpError: name already exists on this account" }

/-! ## Helper lemmas: lists, splitOn, intercalate -/

theorem takeWhile_append_stop {α} {p : α → Bool} (a : α) (r : List α) (ha : p a = false) :
    ∀ (l : List α), (∀ c ∈ l, p c = true) → (l ++ a :: r).takeWhile p = l
  | [], _ => by simp [List.takeWhile_cons, ha]
  | b :: t, hl => by
    have hb : p b = true := hl b (by simp)
    have ih := takeWhile_append_stop a r ha t (fun c hc => hl c (by simp [hc]))
    simp [List.takeWhile_cons, hb, ih]

theorem dropWhile_append_all {α} {p : α → Bool} (r : List α) :
    ∀ (l : List α), (∀ c ∈ l, p c = true) → (l ++ r).dropWhile p = r.dropWhile p
  | [], _ => rfl
  | b :: t, hl => by
    have hb : p b = true := hl b (by simp)
    have ih := dropWhile_append_all r t (fun c hc => hl c (by simp [hc]))
    simp [List.dropWhile_cons, hb, ih]

theorem modifyHead_append_left {α} (f : α → α) (l₁ l₂ : List α) (h : l₁ ≠ []) :
    (l₁ ++ l₂).modifyHead f = l₁.modifyHead f ++ l₂ := by
  cases l₁ with
  | nil => exact absurd rfl h
  | cons a t => rfl

theorem splitOnP_sep_append {α} (p : α → Bool) (x : α) (hx : p x = true) :
    ∀ (l r : List α), (l ++ x :: r).splitOnP p = l.splitOnP p ++ r.splitOnP p
  | [], r => by simp [List.splitOnP_cons, hx]
  | a :: t, r => by
    by_cases ha : p a = true
    · simp [List.splitOnP_cons, ha, splitOnP_sep_append p x hx t r]
    · have ha' : p a = false := by simpa using ha
      simp only [List.cons_append, List.splitOnP_cons, ha', Bool.false_eq_true, if_false]
      rw [splitOnP_sep_append p x hx t r,
        modifyHead_append_left _ _ _ (List.splitOnP_ne_nil p t)]

theorem splitOn_sep_append {α} [DecidableEq α] (x : α) (l r : List α) :
    (l ++ x :: r).splitOn x = l.splitOn x ++ r.splitOn x :=
  splitOnP_sep_append (fun c => c == x) x (by simp) l r

theorem not_mem_of_mem_splitOnP {α} (p : α → Bool) :
    ∀ (l : List α), ∀ s ∈ l.splitOnP p, ∀ x ∈ s, p x = false
  | [], s, hs => by
    simp at hs; subst hs; intro x hx; cases hx
  | a :: t, s, hs => by
    rw [List.splitOnP_cons] at hs
    by_cases ha : p a = true
    · rw [if_pos ha] at hs
      rcases List.mem_cons.mp hs with h | h
      · subst h; intro x hx; cases hx
      · exact not_mem_of_mem_splitOnP p t s h
    · have ha' : p a = false := by simpa using ha
      rw [if_neg ha] at hs
      rcases hsp : t.splitOnP p with _ | ⟨h0, tl⟩
      · exact absurd hsp (List.splitOnP_ne_nil p t)
      · rw [hsp] at hs
        have hmod : (h0 :: tl).modifyHead (List.cons a) = (a :: h0) :: tl := rfl
        rw [hmod] at hs
        rcases List.mem_cons.mp hs with h | h
        · subst h; intro x hx
          rcases List.mem_cons.mp hx with rfl | hx'
          · exact ha'
          · exact not_mem_of_mem_splitOnP p t h0
              (by rw [hsp]; exact List.mem_cons_self _ _) x hx'
        · exact not_mem_of_mem_splitOnP p t s
            (by rw [hsp]; exact List.mem_cons_of_mem _ h)

theorem splitOn_no_sep {α} [DecidableEq α] (x : α) (l : List α) :
    ∀ s ∈ l.splitOn x, x ∉ s := by
  intro s hs hmem
  have := not_mem_of_mem_splitOnP (fun c => c == x) l s hs x hmem
  simp at this

theorem splitOn_single_of_not_mem {α} [DecidableEq α] {x : α} {l : List α} (h : x ∉ l) :
    l.splitOn x = [l] := by
  apply List.splitOnP_eq_single
  intro y hy
  simp only [beq_iff_eq]
  rintro rfl
  exact h hy

theorem intercalate_single {α} (x : α) (a : List α) : [x].intercalate [a] = a := by
  simp [List.intercalate, List.intersperse]

theorem intercalate_cons_two {α} (x : α) (a b : List α) (t : List (List α)) :
    [x].intercalate (a :: b :: t) = a ++ x :: [x].intercalate (b :: t) := by
  simp [List.intercalate, List.intersperse_cons_cons]

theorem intercalate_append_last {α} (x : α) (f : List α) :
    ∀ (ls : List (List α)), ls ≠ [] →
      [x].intercalate (ls ++ [f]) = [x].intercalate ls ++ x :: f
  | [], h => absurd rfl h
  | [a], _ => by
    simp [intercalate_cons_two, intercalate_single]
  | a :: b :: t, _ => by
    have ih := intercalate_append_last x f (b :: t) (by simp)
    simp only [List.cons_append, intercalate_cons_two]
    rw [show (b :: t) ++ [f] = b :: (t ++ [f]) from rfl] at ih
    rw [ih]
    simp

theorem resolveDots_id (b : Bool) :
    ∀ (l acc : List (List Char)), (∀ s ∈ l, s ≠ [] ∧ s ≠ ['.'] ∧ s ≠ ['.', '.']) →
      resolveDots b acc l = acc.reverse ++ l
  | [], acc, _ => by simp [resolveDots]
  | seg :: rest, acc, h => by
    obtain ⟨h1, h2, h3⟩ := h seg (List.mem_cons_self _ _)
    have e1 : (seg.isEmpty || seg == ['.']) = false := by
      simp [List.isEmpty_iff, h1, h2]
    have e2 : (seg == ['.', '.']) = false := by simp [h3]
    simp only [resolveDots, e1, e2, Bool.false_eq_true, if_false]
    rw [resolveDots_id b rest (seg :: acc) (fun s hs => h s (List.mem_cons_of_mem _ hs))]
    simp

/-! ## Path lemmas for well-formed repository paths -/

theorem basenameChars_append (dl f : List Char) (hf : f ≠ []) (hfs : '/' ∉ f) :
    basenameChars (dl ++ '/' :: f) = f := by
  obtain ⟨c, t2, hrev⟩ : ∃ c t2, f.reverse = c :: t2 := by
    cases hx : f.reverse with
    | nil => exact absurd (List.reverse_eq_nil_iff.mp hx) hf
    | cons c t2 => exact ⟨c, t2, rfl⟩
  have hcmem : c ∈ f := List.mem_reverse.mp (by rw [hrev]; exact List.mem_cons_self _ _)
  have hcne : (c == '/') = false := by
    simp only [beq_eq_false_iff_ne, ne_eq]
    rintro rfl; exact hfs hcmem
  have hall : ∀ x ∈ f.reverse, (x != '/') = true := by
    intro x hx
    simp only [bne_iff_ne, ne_eq]
    rintro rfl; exact hfs (List.mem_reverse.mp hx)
  have hrw : ((dl ++ '/' :: f)).reverse = f.reverse ++ '/' :: dl.reverse := by
    simp [List.reverse_append]
  have h1 : ∀ (r : List Char),
      (f.reverse ++ r).dropWhile (fun x => x == '/') = f.reverse ++ r := by
    intro r
    rw [hrev, List.cons_append, List.dropWhile_cons]
    simp [hcne]
  unfold basenameChars
  rw [hrw, h1, takeWhile_append_stop '/' dl.reverse (by simp) f.reverse hall,
    List.reverse_reverse]

theorem dirnameChars_append (a : Char) (t f : List Char) (hdh : a ≠ '/')
    (hf : f ≠ []) (hfs : '/' ∉ f) :
    dirnameChars ((a :: t) ++ '/' :: f) = a :: t := by
  obtain ⟨c, t2, hrev⟩ : ∃ c t2, f.reverse = c :: t2 := by
    cases hx : f.reverse with
    | nil => exact absurd (List.reverse_eq_nil_iff.mp hx) hf
    | cons c t2 => exact ⟨c, t2, rfl⟩
  have hcmem : c ∈ f := List.mem_reverse.mp (by rw [hrev]; exact List.mem_cons_self _ _)
  have hcne : (c == '/') = false := by
    simp only [beq_eq_false_iff_ne, ne_eq]
    rintro rfl; exact hfs hcmem
  have hall : ∀ x ∈ f.reverse, (x != '/') = true := by
    intro x hx
    simp only [bne_iff_ne, ne_eq]
    rintro rfl; exact hfs (List.mem_reverse.mp hx)
  have hrw : ((a :: t) ++ '/' :: f).reverse = f.reverse ++ '/' :: (a :: t).reverse := by
    simp [List.reverse_append]
  have h1 : ∀ (r : List Char),
      (f.reverse ++ r).dropWhile (fun x => x == '/') = f.reverse ++ r := by
    intro r
    rw [hrev, List.cons_append, List.dropWhile_cons]
    simp [hcne]
  have h2 : (f.reverse ++ '/' :: (a :: t).reverse).dropWhile (fun x => x != '/')
      = '/' :: (a :: t).reverse := by
    rw [dropWhile_append_all _ _ hall, List.dropWhile_cons]
    simp
  have hie : ((a :: t) ++ '/' :: f).isEmpty = false := rfl
  have hhead : ((a :: t) ++ '/' :: f).head? = some a := rfl
  have hroot : ((some a : Option Char) == some '/') = false := by
    simp only [beq_eq_false_iff_ne, ne_eq, Option.some.injEq]
    exact hdh
  have hsl : (((a :: t) : List Char) == ['/']) = false := by
    simp only [beq_eq_false_iff_ne, ne_eq, List.cons.injEq, not_and]
    intro h; exact absurd h hdh
  unfold dirnameChars
  rw [hie]
  simp only [Bool.false_eq_true, if_false, hhead, hroot, hrw, h1, h2]
  simp [hsl]

theorem goodDir_head (d : String) (hd : goodDir d) :
    ∃ c0 rest, d.data = c0 :: rest ∧ c0 ≠ '/' := by
  obtain ⟨hne, hsegs⟩ := hd
  rcases hsp : d.data.splitOn '/' with _ | ⟨s0, ss⟩
  · exact absurd hsp (List.splitOnP_ne_nil _ d.data)
  · have hs0 := hsegs s0 (by rw [hsp]; exact List.mem_cons_self _ _)
    have hs0slash : '/' ∉ s0 :=
      splitOn_no_sep '/' d.data s0 (by rw [hsp]; exact List.mem_cons_self _ _)
    obtain ⟨c0, s0t, hc0⟩ : ∃ c0 s0t, s0 = c0 :: s0t := by
      cases hx : s0 with
      | nil => exact absurd hx hs0.1
      | cons c0 s0t => exact ⟨c0, s0t, rfl⟩
    have hc0ne : c0 ≠ '/' := by
      rintro rfl; exact hs0slash (by rw [hc0]; exact List.mem_cons_self _ _)
    have hinter : d.data = ['/'].intercalate (s0 :: ss) := by
      rw [← hsp, List.intercalate_splitOn]
    cases ss with
    | nil =>
      rw [intercalate_single] at hinter
      exact ⟨c0, s0t, by rw [hinter, hc0], hc0ne⟩
    | cons b t =>
      rw [intercalate_cons_two] at hinter
      rw [hc0] at hinter
      exact ⟨c0, s0t ++ '/' :: ['/'].intercalate (b :: t), by simpa using hinter, hc0ne⟩

theorem getLast?_append_cons {α} (l : List α) (x : α) (r : List α) (hr : r ≠ []) :
    (l ++ x :: r).getLast? = r.getLast? := by
  rw [List.getLast?_append]
  cases hx : (x :: r).getLast? with
  | none => exact absurd (by simpa using List.getLast?_eq_none_iff.mp hx) hr
  | some v =>
    have : r.getLast? = some v := by
      rw [List.getLast?_cons] at hx
      cases hy : r.getLast? with
      | none => exact absurd (List.getLast?_eq_none_iff.mp hy) hr
      | some w => rw [hy] at hx; simpa using hx
    simp [this, hx]

theorem normalizeChars_append (d f : String) (hd : goodDir d)
    (hf1 : f.data ≠ []) (hf2 : '/' ∉ f.data) (hf3 : f.data ≠ ['.'])
    (hf4 : f.data ≠ ['.', '.']) :
    normalizeChars (d.data ++ '/' :: f.data) = d.data ++ '/' :: f.data := by
  obtain ⟨c0, rest, hdd, hc0⟩ := goodDir_head d hd
  have hie : (d.data ++ '/' :: f.data).isEmpty = false := by
    rw [hdd]; rfl
  have hhead : (d.data ++ '/' :: f.data).head? = some c0 := by
    rw [hdd]; rfl
  have hroot : ((some c0 : Option Char) == some '/') = false := by
    simp only [beq_eq_false_iff_ne, ne_eq, Option.some.injEq]
    exact hc0
  obtain ⟨cl, hcl, hclmem⟩ : ∃ cl, f.data.getLast? = some cl ∧ cl ∈ f.data := by
    refine ⟨f.data.getLast hf1, List.getLast?_eq_getLast _ hf1, List.getLast_mem hf1⟩
  have hlast : (d.data ++ '/' :: f.data).getLast? = some cl := by
    rw [getLast?_append_cons _ _ _ hf1, hcl]
  have htrail : ((some cl : Option Char) == some '/') = false := by
    simp only [beq_eq_false_iff_ne, ne_eq, Option.some.injEq]
    rintro rfl; exact hf2 hclmem
  have hsegs : (d.data ++ '/' :: f.data).splitOn '/'
      = d.data.splitOn '/' ++ [f.data] := by
    rw [splitOn_sep_append, splitOn_single_of_not_mem hf2]
  have hgood : ∀ s ∈ d.data.splitOn '/' ++ [f.data],
      s ≠ [] ∧ s ≠ ['.'] ∧ s ≠ ['.', '.'] := by
    intro s hs
    rcases List.mem_append.mp hs with h | h
    · exact hd.2 s h
    · rw [List.mem_singleton.mp h]; exact ⟨hf1, hf3, hf4⟩
  have hres : ∀ (b : Bool), resolveDots b [] (d.data.splitOn '/' ++ [f.data])
      = d.data.splitOn '/' ++ [f.data] := by
    intro b
    rw [resolveDots_id b _ [] hgood]; rfl
  have hsne : d.data.splitOn '/' ≠ [] := List.splitOnP_ne_nil _ d.data
  have hbody : List.intercalate ['/'] (d.data.splitOn '/' ++ [f.data])
      = d.data ++ '/' :: f.data := by
    rw [intercalate_append_last '/' f.data (d.data.splitOn '/') hsne,
      List.intercalate_splitOn]
  have hbodyne : (d.data ++ '/' :: f.data).isEmpty = false := hie
  unfold normalizeChars
  rw [hie]
  simp only [Bool.false_eq_true, if_false, hhead, hroot, hlast, htrail, hsegs, hres,
    hbody, hbodyne]

theorem joinTwo_good (d f : String) (hd : goodDir d) (hf1 : f.data ≠ [])
    (hf2 : '/' ∉ f.data) (hf3 : f.data ≠ ['.']) (hf4 : f.data ≠ ['.', '.']) :
    joinTwo d f = d ++ "/" ++ f := by
  have hdne : d ≠ "" := by
    intro h; exact hd.1 (by rw [h])
  have hfne : f ≠ "" := by
    intro h; exact hf1 (by rw [h])
  unfold joinTwo
  rw [if_neg hdne, if_neg hfne]
  apply String.ext
  have hdata : (d ++ "/" ++ f).data = d.data ++ '/' :: f.data := by
    show (d.data ++ ['/']) ++ f.data = d.data ++ '/' :: f.data
    simp
  show normalizeChars (d ++ "/" ++ f).data = (d ++ "/" ++ f).data
  rw [hdata, normalizeChars_append d f hd hf1 hf2 hf3 hf4]

theorem basename_append_str (d f : String) (hf1 : f.data ≠ []) (hf2 : '/' ∉ f.data) :
    basename (d ++ "/" ++ f) = f := by
  apply String.ext
  have hdata : (d ++ "/" ++ f).data = d.data ++ '/' :: f.data := by
    show (d.data ++ ['/']) ++ f.data = d.data ++ '/' :: f.data
    simp
  show basenameChars (d ++ "/" ++ f).data = f.data
  rw [hdata, basenameChars_append d.data f.data hf1 hf2]

theorem dirname_append_str (d f : String) (hd : goodDir d) (hf1 : f.data ≠ [])
    (hf2 : '/' ∉ f.data) :
    dirname (d ++ "/" ++ f) = d := by
  obtain ⟨c0, rest, hdd, hc0⟩ := goodDir_head d hd
  apply String.ext
  have hdata : (d ++ "/" ++ f).data = (c0 :: rest) ++ '/' :: f.data := by
    show (d.data ++ ['/']) ++ f.data = (c0 :: rest) ++ '/' :: f.data
    rw [hdd]; simp
  show dirnameChars (d ++ "/" ++ f).data = d.data
  rw [hdata, dirnameChars_append c0 rest f.data hc0 hf1 hf2, hdd]

/-! ## Claim theorems -/

/-- Claim C1 (amended): for every RemoteFile whose content payload is
present and non-empty and whose path does not end in the `.njk` template
suffix, `renderFileData` returns a RenderedFile whose content is exactly
the base64-decoded input content and whose path is the input path
unchanged.  (The original claim, stated for every present content payload,
fails on a present-but-empty payload: see `claim_C1_counterexample`.) -/
theorem claim_C1_amended (file : GetContentsData) (input : UserInput) (c : String)
    (hc : file.content = some c) (hne : c ≠ "")
    (hnjk : jsEndsWith file.path ".njk" = false) :
    renderFileData file input = some { path := file.path, content := b64ToString c } := by
  simp [renderFileData, hc, hne, hnjk]

/-- Claim C1 counterexample: a RemoteFile whose content payload is present
but empty (`content: ""`, as the contents API returns for an empty file)
has a content payload and a non-`.njk` path, yet `renderFileData` returns
no RenderedFile at all — not a RenderedFile with the decoded content
(which would be `""`): JS truthiness makes `if (file.content)` treat the
empty payload as absent. -/
theorem claim_C1_counterexample :
    renderFileData fileLicenseEmpty inputEx = none ∧ b64ToString "" = "" := by
  constructor <;> rfl

/-- Witness for `claim_C1_amended` at a concrete non-template file. -/
theorem claim_C1_witness :
    renderFileData fileLicense inputEx
      = some { path := "bun/LICENSE", content := b64ToString "TUlU" } :=
  claim_C1_amended fileLicense inputEx "TUlU" rfl (by decide) (by decide)

/-- Claim C6: a RemoteFile with no content payload produces no
RenderedFile: `renderFileData` returns `none` (the no-result value) rather
than raising, and the fetch loop of `getTemplateFiles` adds nothing to its
output for such an entry. -/
theorem claim_C6 :
    (∀ (file : GetContentsData) (input : UserInput), file.content = none →
      renderFileData file input = none) ∧
    (∀ (api : Api) (input : UserInput) (n : TreeNode) (rest : List TreeNode)
        (p : String) (d : GetContentsData),
      n.path = some p → api.fetchContent p = .ok (200, d) → d.content = none →
      filesLoop api input (n :: rest) = filesLoop api input rest) := by
  constructor
  · intro file input h
    simp [renderFileData, h]
  · intro api input n rest p d hp hf hd
    have hrd : renderFileData d input = none := by simp [renderFileData, hd]
    by_cases hw : wantedPath input n.type p = true
    · simp [filesLoop, hp, hw, hf, hrd]
    · simp [filesLoop, hp, hw]

/-- Witness for `claim_C6` at a concrete directory entry (no payload). -/
theorem claim_C6_witness : renderFileData fileDirEntry inputEx = none :=
  claim_C6.1 fileDirEntry inputEx rfl

/-- Claim C7: rendering is a deterministic pure function of the
(RemoteFile, ScaffoldRequest) pair: `renderFileData` gives equal outputs on
equal requests and on files agreeing in `path` and `content` — in
particular it is independent of every other field and of any other state,
and applying it twice to identical inputs is byte-identical. -/
theorem claim_C7 (f g : GetContentsData) (i j : UserInput)
    (hpath : f.path = g.path) (hcontent : f.content = g.content) (hij : i = j) :
    renderFileData f i = renderFileData g j := by
  subst hij
  unfold renderFileData
  rw [hpath, hcontent]

/-- Witness for `claim_C7`: two files differing in `size`, `name` and
`sha` render identically. -/
theorem claim_C7_witness :
    renderFileData fileReadme inputEx = renderFileData fileReadmeAlt inputEx :=
  claim_C7 fileReadme fileReadmeAlt inputEx inputEx rfl rfl rfl

/-- Shared helper: rendering a `.njk` file with non-empty content `c` that
sits as basename `f` under a well-formed directory `d` renames via
`getNewFilename` and substitutes placeholders in the decoded content. -/
theorem renderFileData_njk_dir (d f : String) (input : UserInput) (c : String)
    (hd : goodDir d) (hc : c ≠ "")
    (hf1 : f.data ≠ []) (hf2 : '/' ∉ f.data) (hnjk : jsEndsWith f ".njk" = true)
    (file : GetContentsData) (hpath : file.path = d ++ "/" ++ f)
    (hcon : file.content = some c)
    (hgf1 : (getNewFilename f).data ≠ []) (hgf2 : '/' ∉ (getNewFilename f).data)
    (hgf3 : (getNewFilename f).data ≠ ['.'])
    (hgf4 : (getNewFilename f).data ≠ ['.', '.']) :
    renderFileData file input
      = some { path := d ++ "/" ++ getNewFilename f
               content := renderString (b64ToString c) input } := by
  have hmid : jsEndsWith (d ++ "/" ++ f) ".njk" = true := by
    unfold jsEndsWith at hnjk ⊢
    rw [List.isSuffixOf_iff_suffix] at hnjk ⊢
    have h1 : f.data <:+ (d ++ "/" ++ f).data := by
      show f.data <:+ (d.data ++ ['/']) ++ f.data
      exact List.suffix_append _ _
    exact hnjk.trans h1
  have hbn : basename (d ++ "/" ++ f) = f := basename_append_str d f hf1 hf2
  have hdn : dirname (d ++ "/" ++ f) = d := dirname_append_str d f hd hf1 hf2
  have hjoin : joinTwo d (getNewFilename f) = d ++ "/" ++ getNewFilename f :=
    joinTwo_good d (getNewFilename f) hd hgf1 hgf2 hgf3 hgf4
  simp only [renderFileData, hcon, hpath, hmid, hbn, hdn, hjoin, if_true]
  simp [hc]

/-- Claim C2 (amended): for every RemoteFile with a present *non-empty*
content payload whose basename is literally `README.njk` under a directory
`d/`, `renderFileData` outputs final path `d/README.md`; for basename
`package.njk` under `d/`, it outputs `d/package.json` (in both cases with
the placeholder-substituted decoded content).  `d` ranges over the
well-formed repository directories (`goodDir`).  (The original claim, for
every present content payload, fails on a present-but-empty payload: see
`claim_C2_counterexample`.) -/
theorem claim_C2_amended (d c : String) (input : UserInput) (hd : goodDir d)
    (hc : c ≠ "") :
    (∀ file : GetContentsData, file.path = d ++ "/" ++ "README.njk" →
      file.content = some c →
      renderFileData file input
        = some { path := d ++ "/" ++ "README.md"
                 content := renderString (b64ToString c) input }) ∧
    (∀ file : GetContentsData, file.path = d ++ "/" ++ "package.njk" →
      file.content = some c →
      renderFileData file input
        = some { path := d ++ "/" ++ "package.json"
                 content := renderString (b64ToString c) input }) := by
  constructor
  · intro file hpath hcon
    have hgn : getNewFilename "README.njk" = "README.md" := by decide
    have h := renderFileData_njk_dir d "README.njk" input c hd hc
      (by decide) (by decide) (by decide) file hpath hcon
      (by rw [hgn]; decide) (by rw [hgn]; decide) (by rw [hgn]; decide)
      (by rw [hgn]; decide)
    rw [hgn] at h
    exact h
  · intro file hpath hcon
    have hgn : getNewFilename "package.njk" = "package.json" := by decide
    have h := renderFileData_njk_dir d "package.njk" input c hd hc
      (by decide) (by decide) (by decide) file hpath hcon
      (by rw [hgn]; decide) (by rw [hgn]; decide) (by rw [hgn]; decide)
      (by rw [hgn]; decide)
    rw [hgn] at h
    exact h

/-- Claim C2 counterexample: a `README.njk` RemoteFile whose content
payload is present but empty yields no RenderedFile at all — so no output
with path `bun/README.md` exists for it, contradicting the claim as
stated for every RemoteFile "with content". -/
theorem claim_C2_counterexample :
    renderFileData fileReadmeEmpty inputEx = none := by rfl

/-- Witness for `claim_C2_amended` with `d = "bun"`. -/
theorem claim_C2_witness :
    renderFileData fileReadme inputEx
      = some { path := "bun" ++ "/" ++ "README.md"
               content := renderString (b64ToString "IyBIaQ==") inputEx } :=
  (claim_C2_amended "bun" "IyBIaQ==" inputEx (by constructor <;> decide)
    (by decide)).1 fileReadme (by decide) rfl

/-- Claim C3 (amended): for every RemoteFile with a present *non-empty*
content payload whose path ends in `.njk` but whose basename `f` is
neither `README.njk` nor `package.njk`, sitting under a well-formed
directory `d/`, `renderFileData` keeps the full path — hence the filename,
including the `.njk` suffix — unchanged, while still substituting
placeholders in the decoded content.  (The original claim, for every such
file "with content", fails on a present-but-empty payload: see
`claim_C3_counterexample`.) -/
theorem claim_C3_amended (d f c : String) (input : UserInput) (hd : goodDir d)
    (hc : c ≠ "") (hf2 : '/' ∉ f.data) (hnjk : jsEndsWith f ".njk" = true)
    (hfr : f ≠ "README.njk") (hfp : f ≠ "package.njk") :
    ∀ file : GetContentsData, file.path = d ++ "/" ++ f → file.content = some c →
      renderFileData file input
        = some { path := d ++ "/" ++ f
                 content := renderString (b64ToString c) input } := by
  intro file hpath hcon
  obtain ⟨pre, hpre⟩ : ∃ pre, f.data = pre ++ ".njk".data := by
    obtain ⟨pre, hp⟩ := List.isSuffixOf_iff_suffix.mp hnjk
    exact ⟨pre, hp.symm⟩
  have hf1 : f.data ≠ [] := by
    rw [hpre]; simp
  have hlen : f.data.length = pre.length + 4 := by
    rw [hpre, List.length_append]; rfl
  have hf3 : f.data ≠ ['.'] := by
    intro h
    have hl := congrArg List.length h
    rw [hlen] at hl
    simp only [List.length_cons, List.length_nil] at hl
    omega
  have hf4 : f.data ≠ ['.', '.'] := by
    intro h
    have hl := congrArg List.length h
    rw [hlen] at hl
    simp only [List.length_cons, List.length_nil] at hl
    omega
  have hgn : getNewFilename f = f := by
    unfold getNewFilename
    rw [if_neg hfr, if_neg hfp]
  have h := renderFileData_njk_dir d f input c hd hc hf1 hf2 hnjk file hpath hcon
    (by rw [hgn]; exact hf1) (by rw [hgn]; exact hf2) (by rw [hgn]; exact hf3)
    (by rw [hgn]; exact hf4)
  rw [hgn] at h
  exact h

/-- Claim C3 counterexample: an `other.njk` RemoteFile whose content
payload is present but empty yields no RenderedFile at all, contradicting
the claim as stated for every such RemoteFile "with content". -/
theorem claim_C3_counterexample :
    renderFileData fileOtherEmpty inputEx = none := by rfl

/-- Witness for `claim_C3_amended` with `d = "bun"`, `f = "other.njk"`. -/
theorem claim_C3_witness :
    renderFileData fileOther inputEx
      = some { path := "bun" ++ "/" ++ "other.njk"
               content := renderString (b64ToString "aGk=") inputEx } :=
  claim_C3_amended "bun" "other.njk" "aGk=" inputEx (by constructor <;> decide)
    (by decide) (by decide) (by decide) (by decide) (by decide)
    fileOther (by decide) rfl

/-- Helper: if some qualifying tree node's content fetch fails (throws or
returns a non-200 status), the fetch-and-render loop raises. -/
theorem filesLoop_error (api : Api) (input : UserInput) :
    ∀ (l : List TreeNode),
      (∃ n ∈ l, ∃ p, n.path = some p ∧ wantedPath input n.type p = true ∧
        fetchFails api p) →
      ∃ e, filesLoop api input l = .error e
  | [], h => by simp at h
  | n :: rest, h => by
    rcases h with ⟨m, hm, p, hp, hw, hbad⟩
    rcases List.mem_cons.mp hm with rfl | hmrest
    · unfold fetchFails at hbad
      rcases hfc : api.fetchContent p with e | ⟨st, dd⟩
      · exact ⟨e, by simp [filesLoop, hp, hw, hfc]⟩
      · rw [hfc] at hbad
        exact ⟨"Template file not found: " ++ p,
          by simp [filesLoop, hp, hw, hfc, if_pos hbad]⟩
    · obtain ⟨e, he⟩ := filesLoop_error api input rest ⟨m, hmrest, p, hp, hw, hbad⟩
      rcases hnp : n.path with _ | q
      · exact ⟨e, by simp only [filesLoop, hnp]; exact he⟩
      · by_cases hwq : wantedPath input n.type q = true
        · rcases hfc : api.fetchContent q with e2 | ⟨st, dd⟩
          · exact ⟨e2, by simp [filesLoop, hnp, hwq, hfc]⟩
          · by_cases hst : st = 200
            · subst hst
              rcases hrd : renderFileData dd input with _ | r
              · exact ⟨e, by simp [filesLoop, hnp, hwq, hfc, hrd]; exact he⟩
              · exact ⟨e, by simp [filesLoop, hnp, hwq, hfc, hrd, he, Except.map]⟩
            · exact ⟨"Template file not found: " ++ q,
                by simp [filesLoop, hnp, hwq, hfc, if_pos hst]⟩
        · exact ⟨e, by simp only [filesLoop, hnp, hwq, Bool.false_eq_true, if_false]
                       exact he⟩

/-- Claim C4: if the tree listing reports a non-success status, or the
content fetch of any single qualifying file throws or reports a
non-success status, `getTemplateFiles` returns the empty list — never a
partial file set.  (It cannot raise: the embedding is a total function,
mirroring the `try/catch` that converts every thrown error into `[]`.) -/
theorem claim_C4 (api : Api) (input : UserInput) (tr : TreeResponse)
    (htr : api.treeRes = .ok tr)
    (hbad : tr.status ≠ 200 ∨
      ∃ n ∈ tr.tree, ∃ p, n.path = some p ∧ wantedPath input n.type p = true ∧
        fetchFails api p) :
    getTemplateFiles api input = [] := by
  rcases hbad with hst | hb
  · simp only [getTemplateFiles, htr, if_pos hst]
  · by_cases hst : tr.status = 200
    · obtain ⟨e, he⟩ := filesLoop_error api input tr.tree hb
      simp only [getTemplateFiles, htr, hst, ne_eq, not_true_eq_false, Bool.false_eq_true,
        if_false, he]
    · simp only [getTemplateFiles, htr, if_pos hst]

/-- Witness for `claim_C4`: a 404 tree listing yields the empty file set. -/
theorem claim_C4_witness : getTemplateFiles apiBadTree inputEx = [] :=
  claim_C4 apiBadTree inputEx { status := 404, tree := [] } rfl (Or.inl (by decide))

/-- Helper: when every qualifying node's fetch succeeds with status 200,
the fetch-and-render loop returns the in-order `filterMap` image of the
tree listing. -/
theorem filesLoop_ok (api : Api) (input : UserInput) :
    ∀ (l : List TreeNode),
      (∀ n ∈ l, ∀ p, n.path = some p → wantedPath input n.type p = true →
        ∃ d, api.fetchContent p = .ok (200, d)) →
      filesLoop api input l = .ok (l.filterMap (nodeOutput api input))
  | [], _ => rfl
  | n :: rest, h => by
    have ih := filesLoop_ok api input rest (fun m hm => h m (List.mem_cons_of_mem _ hm))
    rcases hnp : n.path with _ | p
    · simp [filesLoop, hnp, ih, nodeOutput, List.filterMap_cons]
    · by_cases hw : wantedPath input n.type p = true
      · obtain ⟨d, hd⟩ := h n (List.mem_cons_self _ _) p hnp hw
        rcases hrd : renderFileData d input with _ | r
        · simp [filesLoop, hnp, hw, hd, hrd, ih, nodeOutput, List.filterMap_cons]
        · simp [filesLoop, hnp, hw, hd, hrd, ih, nodeOutput, List.filterMap_cons, Except.map]
      · simp [filesLoop, hnp, hw, ih, nodeOutput, List.filterMap_cons]

/-- Claim C5: on a fully successful run (tree status 200, every qualifying
fetch succeeding with status 200), the Fetcher's output is exactly the
in-order `filterMap` image of the tree listing — so the ordering matches
the tree-listing order — and every returned entry originates from a `blob`
node under the lower-cased variant prefix whose content was retrieved
(present payload). -/
theorem claim_C5 (api : Api) (input : UserInput) (tr : TreeResponse)
    (htr : api.treeRes = .ok tr) (hst : tr.status = 200)
    (hfetch : ∀ n ∈ tr.tree, ∀ p, n.path = some p → wantedPath input n.type p = true →
      ∃ d, api.fetchContent p = .ok (200, d)) :
    getTemplateFiles api input = tr.tree.filterMap (nodeOutput api input) ∧
    ∀ r ∈ getTemplateFiles api input, ∃ n ∈ tr.tree, ∃ p d,
      n.path = some p ∧ wantedPath input n.type p = true ∧
      api.fetchContent p = .ok (200, d) ∧ d.content ≠ none ∧
      renderFileData d input = some r := by
  have heq : getTemplateFiles api input = tr.tree.filterMap (nodeOutput api input) := by
    simp only [getTemplateFiles, htr, hst, ne_eq, not_true_eq_false, Bool.false_eq_true,
      if_false, filesLoop_ok api input tr.tree hfetch]
  refine ⟨heq, ?_⟩
  intro r hr
  rw [heq] at hr
  obtain ⟨n, hn, hno⟩ := List.mem_filterMap.mp hr
  rcases hnp : n.path with _ | p
  · simp only [nodeOutput, hnp] at hno
    cases hno
  · simp only [nodeOutput, hnp] at hno
    by_cases hw : wantedPath input n.type p = true
    · rw [if_pos hw] at hno
      obtain ⟨d, hd⟩ := hfetch n hn p hnp hw
      simp only [hd] at hno
      refine ⟨n, hn, p, d, hnp, hw, hd, ?_, hno⟩
      intro hcn
      rw [show renderFileData d input = none from by simp [renderFileData, hcn]] at hno
      cases hno
    · rw [if_neg hw] at hno
      cases hno

/-- Witness for `claim_C5` on the concrete successful run `apiOk`. -/
theorem claim_C5_witness :
    getTemplateFiles apiOk inputEx = treeEx.tree.filterMap (nodeOutput apiOk inputEx) := by
  refine (claim_C5 apiOk inputEx treeEx rfl rfl ?_).1
  intro n hn p hp hw
  simp only [treeEx, List.mem_cons, List.not_mem_nil, or_false] at hn
  rcases hn with rfl | rfl | rfl
  · injection hp with h
    subst h
    exact ⟨fileReadme, rfl⟩
  · injection hp with h
    subst h
    exact absurd hw (by decide)
  · injection hp with h
    subst h
    exact absurd hw (by decide)

/-- Helper: what `getInput` puts in the fields of a successfully resolved
request. -/
theorem getInput_ok_fields (env : Env) (input : UserInput)
    (h : getInput env = .ok input) :
    input.repoTeam = lookupTeam (env.REPO_TEAM.getD "") ∧
    input.repoTopics = env.REPO_TOPICS.map (fun s => jsSplit s ',') ∧
    input.repoName = env.REPO_NAME.getD "" ∧
    input.repoOwner = (jsOrOpt env.GITHUB_REPOSITORY_OWNER env.REPO_OWNER).getD "" ∧
    input.repoDescription = env.REPO_DESCRIPTION := by
  simp only [getInput] at h
  split at h
  · exact Except.noConfusion h
  · split at h
    · exact Except.noConfusion h
    · split at h
      · exact Except.noConfusion h
      · split at h
        · exact Except.noConfusion h
        · injection h with h
          subst h
          exact ⟨rfl, rfl, rfl, rfl, rfl⟩

/-- Helper: when every required variable is truthy, `getInput` succeeds
with the resolved record. -/
theorem getInput_ok_of (env : Env)
    (hname : jsTruthy env.REPO_NAME = true) (hteam : jsTruthy env.REPO_TEAM = true)
    (htype : jsTruthy env.REPO_TYPE = true)
    (howner : jsTruthy (jsOrOpt env.GITHUB_REPOSITORY_OWNER env.REPO_OWNER) = true) :
    getInput env = .ok
      { repoName := env.REPO_NAME.getD ""
        repoTeam := lookupTeam (env.REPO_TEAM.getD "")
        repoType := env.REPO_TYPE.getD ""
        repoOwner := (jsOrOpt env.GITHUB_REPOSITORY_OWNER env.REPO_OWNER).getD ""
        repoTopics := env.REPO_TOPICS.map (fun s => jsSplit s ',')
        repoDescription := env.REPO_DESCRIPTION
        templateRepoName := jsOr env.TEMPLATE_REPO_NAME "Blog-GitHub-API-Automation-Template" } := by
  simp only [getInput, hname, hteam, htype, howner, Bool.not_true, Bool.false_eq_true,
    if_false]

/-- Claim C8 (amended): `getInput` does not validate `REPO_TEAM` against
the team table.  For every run whose `REPO_TEAM` is set to a non-empty
value outside the enumerated team names (with the other required variables
set), input resolution does **not** reject the run: it succeeds, and the
resulting request's team is the absent value (`undefined`) — a silent
pass-through of the unrecognized value, not a known team record.  (The
original claim — rejection as a configuration error, team always a known
record — is refuted by `claim_C8_counterexample`.) -/
theorem claim_C8_amended (env : Env) (t : String)
    (hteam : env.REPO_TEAM = some t) (ht : t ≠ "") (hunknown : lookupTeam t = none)
    (hname : jsTruthy env.REPO_NAME = true) (htype : jsTruthy env.REPO_TYPE = true)
    (howner : jsTruthy (jsOrOpt env.GITHUB_REPOSITORY_OWNER env.REPO_OWNER) = true) :
    ∃ u, getInput env = .ok u ∧ u.repoTeam = none := by
  have hteamT : jsTruthy env.REPO_TEAM = true := by simp [jsTruthy, hteam, ht]
  refine ⟨_, getInput_ok_of env hname hteamT htype howner, ?_⟩
  show lookupTeam (env.REPO_TEAM.getD "") = none
  rw [hteam]
  simpa using hunknown

/-- Claim C8 counterexample: with `REPO_TEAM=Marketing` — not an
enumerated team name — `getInput` does not raise a configuration error: it
returns a request whose team is `none` (`undefined`), which later crashes
the `userInput.repoTeam.name` debug access instead. -/
theorem claim_C8_counterexample :
    getInput envUnknownTeam = .ok
      { repoName := "new-svc", repoTeam := none, repoType := "Bun", repoOwner := "acme"
        repoTopics := none, repoDescription := none
        templateRepoName := "Blog-GitHub-API-Automation-Template" } ∧
    lookupTeam "Marketing" = none := by
  constructor <;> rfl

/-- Witness for `claim_C8_amended` at the concrete `envUnknownTeam`. -/
theorem claim_C8_witness :
    ∃ u, getInput envUnknownTeam = .ok u ∧ u.repoTeam = none :=
  claim_C8_amended envUnknownTeam "Marketing" rfl (by decide) (by decide) (by decide)
    (by decide) (by decide)

/-- Helper: the `main` body never yields a non-zero exit code — the single
`catch` handler logs and swallows every failure. -/
theorem mainRun_exit (env : Env) (api : Api) : (mainRun env api).2 = 0 := by
  simp only [mainRun]
  rcases hgi : getInput env with e | input <;> simp only [hgi]
  rcases hteam : input.repoTeam with _ | tm <;> simp only [hteam]
  rcases hcr : api.createRepoStatus with e2 | st <;> simp only [hcr]
  split
  · rcases hrt : api.replaceTopicsStatus with e3 | st2 <;> simp only [hrt]
  · rfl

/-- Claim C9 (amended): every failure raised inside the run — repository
creation, topic update, template fetching, file writes, even the crash on
an unknown team — is caught by the single top-level handler, which logs
it, and the process exit code is 0: the triggering CI job is **not**
marked failed.  The success path also exits 0.  Only the module-level
API-token check, which throws before the handler exists, produces a
non-zero exit.  (The original claim — non-zero exit on uncaught failure —
is refuted by `claim_C9_counterexample`.) -/
theorem claim_C9_amended (env : Env) (api : Api) :
    ((jsTruthy env.GITHUB_TOKEN || jsTruthy env.GH_PAT) = true →
      (program env api).2 = 0) ∧
    ((jsTruthy env.GITHUB_TOKEN || jsTruthy env.GH_PAT) = false →
      (program env api).2 = 1) := by
  constructor
  · intro h
    simp only [program, h, if_true]
    exact mainRun_exit env api
  · intro h
    simp [program, h]

/-- Claim C9 counterexample: a run whose repository-creation request
throws (an uncaught failure reaching the top-level handler) still ends
with process exit code 0 — the claim demands a non-zero exit code. -/
theorem claim_C9_counterexample :
    apiFailCreate.createRepoStatus
        = .error "HttpError: name already exists on this account" ∧
    program envEx apiFailCreate
        = ([ApiCall.createRepo "new-svc" "acme" none], 0) := by
  constructor <;> rfl

/-- Witness for `claim_C9_amended`: the all-success run exits 0. -/
theorem claim_C9_witness : (program envEx apiOk).2 = 0 :=
  (claim_C9_amended envEx apiOk).1 rfl

/-- Helper: `jsSplit` never returns the empty list (JS `split` always
yields at least one piece). -/
theorem jsSplit_ne_nil (s : String) (sep : Char) : jsSplit s sep ≠ [] := by
  unfold jsSplit
  intro h
  exact List.splitOnP_ne_nil _ _ (List.map_eq_nil_iff.mp h)

/-- Helper: the write loop emits only `createOrUpdateFile` calls. -/
theorem writeFilesLoop_calls (api : Api) (input : UserInput) :
    ∀ (fs : List RenderedTemplateFile) (c : ApiCall), c ∈ writeFilesLoop api input fs →
      ∃ pth ct m r o, c = ApiCall.createOrUpdateFile pth ct m r o
  | [], c, hc => by simp [writeFilesLoop] at hc
  | f :: rest, c, hc => by
    simp only [writeFilesLoop] at hc
    rcases hcf : api.createFileStatus f.path with e | st
    · simp only [hcf] at hc
      rw [List.mem_singleton.mp hc]
      exact ⟨_, _, _, _, _, rfl⟩
    · simp only [hcf] at hc
      rcases List.mem_cons.mp hc with rfl | h
      · exact ⟨_, _, _, _, _, rfl⟩
      · exact writeFilesLoop_calls api input rest c h

/-- Claim C10: in a run that reaches the repository-creation step (input
resolved, team known, creation call returning), the `replaceAllTopics`
call appears in the write trace iff the resolved `repoTopics` list is
defined and its first element is non-empty; and when `REPO_TOPICS` is
unset or the empty string, the trace is exactly the creation call followed
by the file writes — topics untouched, creation and writes unaffected. -/
theorem claim_C10 (env : Env) (api : Api) (input : UserInput) (tm : RepoTeam) (st : Nat)
    (hgi : getInput env = .ok input) (hteam : input.repoTeam = some tm)
    (hcr : api.createRepoStatus = .ok st) :
    ((∃ ns r o, ApiCall.replaceAllTopics ns r o ∈ (mainRun env api).1) ↔
      (∃ h t, input.repoTopics = some (h :: t) ∧ h ≠ "")) ∧
    (env.REPO_TOPICS = none ∨ env.REPO_TOPICS = some "" →
      (mainRun env api).1
        = ApiCall.createRepo input.repoName input.repoOwner input.repoDescription ::
          writeFilesLoop api input (getTemplateFiles api input)) := by
  obtain ⟨-, htopF, -, -, -⟩ := getInput_ok_fields env input hgi
  have hG : topicsGuard input.repoTopics = true ↔
      (∃ h t, input.repoTopics = some (h :: t) ∧ h ≠ "") := by
    rcases henv : env.REPO_TOPICS with _ | s
    · rw [htopF, henv]
      simp [topicsGuard]
    · rw [htopF, henv]
      rcases hjs : jsSplit s ',' with _ | ⟨h, t⟩
      · exact absurd hjs (jsSplit_ne_nil s ',')
      · simp [topicsGuard, hjs]
  have htraceF : topicsGuard input.repoTopics = false →
      (mainRun env api).1
        = ApiCall.createRepo input.repoName input.repoOwner input.repoDescription ::
          writeFilesLoop api input (getTemplateFiles api input) := by
    intro hGv
    simp only [mainRun, hgi, hteam, hcr, hGv, Bool.false_eq_true, if_false]
  constructor
  · constructor
    · rintro ⟨ns, r, o, hmem⟩
      by_cases hGv : topicsGuard input.repoTopics = true
      · exact hG.mp hGv
      · have hGf : topicsGuard input.repoTopics = false := by simpa using hGv
        rw [htraceF hGf] at hmem
        rcases List.mem_cons.mp hmem with heq | hin
        · exact ApiCall.noConfusion heq
        · obtain ⟨pth, ct, m, rr, oo, hcon⟩ := writeFilesLoop_calls api input _ _ hin
          exact ApiCall.noConfusion hcon
    · intro hcond
      have hGv := hG.mpr hcond
      refine ⟨input.repoTopics.getD [], input.repoName, input.repoOwner, ?_⟩
      rcases hrt : api.replaceTopicsStatus with e | st2
      · simp only [mainRun, hgi, hteam, hcr, hGv, if_true, hrt]
        simp
      · simp only [mainRun, hgi, hteam, hcr, hGv, if_true, hrt]
        simp
  · intro hoff
    apply htraceF
    rcases hoff with h | h
    · rw [htopF, h]
      rfl
    · rw [htopF, h]
      rfl

/-- Witness for `claim_C10`: with `REPO_TOPICS` unset the trace is the
creation call followed by the file writes, with no topics call. -/
theorem claim_C10_witness :
    (mainRun envEx apiOk).1
      = ApiCall.createRepo inputEx.repoName inputEx.repoOwner inputEx.repoDescription ::
        writeFilesLoop apiOk inputEx (getTemplateFiles apiOk inputEx) :=
  (claim_C10 envEx apiOk inputEx
    ⟨"Platform", "The team responsible for the platform."⟩ 201 rfl rfl rfl).2
    (Or.inl rfl)
